import Mathlib

/-!
Verification development for the Hearts IS-MCTS engine.

The Hearts rules engine proper (`Hearts.cpp`, `UCT.cpp`, `iiMonteCarlo.cpp`)
is not part of the visible sources; only its tests, its documentation and the
HTTP server that calls it are.  Where a definition embeds that missing code it
is modelled from the specification (and carries a doc comment saying so); the
server request handler (`src/server/AIRequestHandler.cpp`) is embedded from
its visible source.

Card encoding, suit/rank numbering, rule-flag values and pass directions are
exactly the on-the-wire values fixed by the spec (§6) and asserted by the
tests (`TestCardSuits`, `TestCardRanks`, `TestRuleFlags`, `TestGameConstants`).
-/

/-- Suit constant: spades (spec §6: `S=0`). -/
def SPADES : Nat := 0

/-- Suit constant: diamonds (spec §6: `D=1`). -/
def DIAMONDS : Nat := 1

/-- Suit constant: clubs (spec §6: `C=2`). -/
def CLUBS : Nat := 2

/-- Suit constant: hearts (spec §6: `H=3`). -/
def HEARTS : Nat := 3

/-- Rank constant: ace, the highest rank (spec §6: `A=0`, lower numeric = higher rank). -/
def ACE : Nat := 0

/-- Rank constant: king. -/
def KING : Nat := 1

/-- Rank constant: queen. -/
def QUEEN : Nat := 2

/-- Rank constant: jack. -/
def JACK : Nat := 3

/-- Rank constant: ten. -/
def TEN : Nat := 4

/-- Rank constant: nine. -/
def NINE : Nat := 5

/-- Rank constant: eight. -/
def EIGHT : Nat := 6

/-- Rank constant: seven. -/
def SEVEN : Nat := 7

/-- Rank constant: six. -/
def SIX : Nat := 8

/-- Rank constant: five. -/
def FIVE : Nat := 9

/-- Rank constant: four. -/
def FOUR : Nat := 10

/-- Rank constant: three. -/
def THREE : Nat := 11

/-- Rank constant: two, the lowest rank (spec §6: `2=12`). -/
def TWO : Nat := 12

namespace Deck

/-- Card encoding `card = (suit << 4) + rank`, as in
`src/server/AIRequestHandler.cpp` (`card_to_string`) and `ANALYSIS.md`. -/
def getcard (s r : Nat) : Nat := 16 * s + r

/-- Suit projection `c >> 4`. -/
def getsuit (c : Nat) : Nat := c / 16

/-- Rank projection `c & 0xF`. -/
def getrank (c : Nat) : Nat := c % 16

end Deck

/-- Rule flag (spec §6): Q♠ worth 13. -/
def kQueenPenalty : Nat := 0x0001

/-- Rule flag (spec §6): J♦ worth −10. -/
def kJackBonus : Nat := 0x0002

/-- Rule flag (spec §6): taking no trick worth −5. -/
def kNoTrickBonus : Nat := 0x0004

/-- Rule flag (spec §6): reserved end-of-game adjustment, no semantics. -/
def kEndScoreBonus : Nat := 0x0008

/-- Rule flag (spec §6): shooting the moon requires J♦. -/
def kShootingNeedsJack : Nat := 0x0010

/-- Rule flag (spec §6): first trick led by the 2♣ holder, with 2♣. -/
def kLead2Clubs : Nat := 0x0020

/-- Rule flag (spec §6): first trick must be led with a club. -/
def kLeadClubs : Nat := 0x0040

/-- Rule flag (spec §6): no hearts on trick 1. -/
def kNoHeartsFirstTrick : Nat := 0x0080

/-- Rule flag (spec §6): no Q♠ on trick 1. -/
def kNoQueenFirstTrick : Nat := 0x0100

/-- Rule flag (spec §6): Q♠ breaks hearts. -/
def kQueenBreaksHearts : Nat := 0x0200

/-- Rule flag (spec §6): the passing phase is enabled. -/
def kDoPassCards : Nat := 0x0400

/-- Rule flag (spec §6): hearts may not be led until broken. -/
def kMustBreakHearts : Nat := 0x0800

/-- Rule flag (spec §6): hearts worth 0. -/
def kHeartsArentPoints : Nat := 0x1000

/-- Rule flag (spec §6): shooting the moon disabled. -/
def kNoShooting : Nat := 0x2000

/-- Pass direction (spec §6): `hold = 0`. -/
def kHold : Int := 0

/-- Pass direction (spec §6): `left = +1`. -/
def kLeftDir : Int := 1

/-- Pass direction (spec §6): `right = −1`. -/
def kRightDir : Int := -1

/-- Pass direction (spec §6): `across = +2`. -/
def kAcrossDir : Int := 2

/-- Test whether a rules mask contains a flag (C++ `rules & flag`). -/
def hasFlag (rules flag : Nat) : Bool := rules &&& flag != 0

/-- The Queen of Spades. -/
def queenOfSpades : Nat := Deck.getcard SPADES QUEEN

/-- The Jack of Diamonds. -/
def jackOfDiamonds : Nat := Deck.getcard DIAMONDS JACK

/-- The Two of Clubs. -/
def twoOfClubs : Nat := Deck.getcard CLUBS TWO

/-- Whether a card is a heart. -/
def isHeart (c : Nat) : Bool := Deck.getsuit c == HEARTS

/-- The ordered 52-card deck: all `16*s + r` with `s < 4`, `r < 13`. -/
def deckList : List Nat :=
  (List.range 4).flatMap fun s => (List.range 13).map fun r => Deck.getcard s r

/-- Modelled from the spec: the dynamic state of the Hearts rules engine
(spec §3, §4.B).  The class `HeartsGameState` lives in the missing
`Hearts.h`/`Hearts.cpp`; field names follow the members the tests access
(`rules`, `passDir`, `cards`, `taken`, `t`/current trick, `currTrick`,
`currPlr`).  Hands, taken piles and pass buffers are card lists (the C++
uses a 52-bit set and linked lists). -/
structure HeartsGameState where
  rules : Nat
  passDir : Int
  cards : Fin 4 → List Nat
  taken : Fin 4 → List Nat
  passed : Fin 4 → List Nat
  trick : List (Fin 4 × Nat)
  currTrick : Nat
  heartsBroken : Bool
  currPlr : Fin 4

/-- Modelled from the spec: `HeartsGameState::setRules` (missing
`Hearts.cpp`; exercised by `TestHeartsGameState_Rules`). -/
def setRules (st : HeartsGameState) (r : Nat) : HeartsGameState :=
  { st with rules := r }

/-- Accessor for the rules mask. -/
def getRules (st : HeartsGameState) : Nat := st.rules

/-- Modelled from the spec: `HeartsGameState::setPassDir` (missing
`Hearts.cpp`).  Passing must be enabled in the rules for the direction to
take effect; otherwise the direction stays `kHold`
(`TestHeartsGameState_PassDirection`). -/
def setPassDir (st : HeartsGameState) (d : Int) : HeartsGameState :=
  { st with passDir := if hasFlag st.rules kDoPassCards then d else kHold }

/-- Accessor for the pass direction. -/
def getPassDir (st : HeartsGameState) : Int := st.passDir

/-- Whether a card survives the first-trick restrictions
(spec §4.B policy 3): no heart under `kNoHeartsFirstTrick`, no Q♠ under
`kNoQueenFirstTrick`. -/
def firstTrickOK (rules c : Nat) : Bool :=
  !(hasFlag rules kNoHeartsFirstTrick && isHeart c) &&
  !(hasFlag rules kNoQueenFirstTrick && c == queenOfSpades)

/-- Modelled from the spec: `HeartsGameState::getMoves` (missing
`Hearts.cpp`), the legal-move generator, applying the policies of spec §4.B
in order: following phase first (lead-suit cards only when held), then the
leading-phase hearts restriction, then the first-trick restrictions with the
"unless the hand contains only such cards" fallback.  Behaviour on concrete
states is pinned by `test_ai_avoids_queen_of_spades` (tests.cpp) and
`test_qs_cannot_play_qs_on_first_trick` (the Q♠ suite). -/
def legalMoves (st : HeartsGameState) : List Nat :=
  let hand := st.cards st.currPlr
  match st.trick with
  | [] =>
    if st.currTrick = 0 then
      if hasFlag st.rules kLead2Clubs && hand.contains twoOfClubs then
        [twoOfClubs]
      else
        let ok := hand.filter (firstTrickOK st.rules)
        if ok.isEmpty then hand else ok
    else
      if hasFlag st.rules kMustBreakHearts && !st.heartsBroken then
        let nonHearts := hand.filter fun c => !isHeart c
        if nonHearts.isEmpty then hand else nonHearts
      else hand
  | (_, c0) :: _ =>
    let follow := hand.filter fun c => Deck.getsuit c == Deck.getsuit c0
    if !follow.isEmpty then follow
    else if st.currTrick = 0 then
      let ok := hand.filter (firstTrickOK st.rules)
      if ok.isEmpty then hand else ok
    else hand

/-- Number of hearts in a seat's taken pile. -/
def heartsTaken (st : HeartsGameState) (seat : Fin 4) : Nat :=
  ((st.taken seat).filter isHeart).length

/-- Heart contribution to a seat's score: +1 per heart, or 0 under
`kHeartsArentPoints` (spec §4.B scoring table). -/
def heartsPoints (st : HeartsGameState) (seat : Fin 4) : Int :=
  if hasFlag st.rules kHeartsArentPoints then 0 else (heartsTaken st seat : Int)

/-- Q♠ contribution to a seat's score: +13 under `kQueenPenalty` when the
seat took Q♠ (spec §4.B scoring table). -/
def queenPoints (st : HeartsGameState) (seat : Fin 4) : Int :=
  if hasFlag st.rules kQueenPenalty && (st.taken seat).contains queenOfSpades then 13 else 0

/-- J♦ contribution: −10 under `kJackBonus` when the seat took J♦. -/
def jackPoints (st : HeartsGameState) (seat : Fin 4) : Int :=
  if hasFlag st.rules kJackBonus && (st.taken seat).contains jackOfDiamonds then -10 else 0

/-- No-trick contribution: −5 under `kNoTrickBonus` when the seat took no
trick (its taken pile is empty, since a trick's four cards all go to its
winner's pile). -/
def noTrickPoints (st : HeartsGameState) (seat : Fin 4) : Int :=
  if hasFlag st.rules kNoTrickBonus && (st.taken seat).isEmpty then -5 else 0

/-- The thirteen hearts. -/
def heartsList : List Nat := (List.range 13).map (Deck.getcard HEARTS)

/-- Modelled from the spec: whether a seat shot the moon — took all hearts,
and Q♠ when `kQueenPenalty`, and J♦ when `kShootingNeedsJack`
(spec §4.B scoring table, moon row). -/
def shotMoon (st : HeartsGameState) (seat : Fin 4) : Bool :=
  heartsList.all (fun h => (st.taken seat).contains h) &&
  (!hasFlag st.rules kQueenPenalty || (st.taken seat).contains queenOfSpades) &&
  (!hasFlag st.rules kShootingNeedsJack || (st.taken seat).contains jackOfDiamonds)

/-- Sum of the four per-condition contributions of the scoring table. -/
def basePoints (st : HeartsGameState) (seat : Fin 4) : Int :=
  queenPoints st seat + heartsPoints st seat + jackPoints st seat + noTrickPoints st seat

/-- Modelled from the spec: `HeartsGameState::score` (missing `Hearts.cpp`),
the flag-driven scoring table of spec §4.B, including the shooting-the-moon
rewrite (the shooter gets 0, every other seat 26) when `kNoShooting` is not
set.  Concrete values pinned by `test_queen_penalty_affects_score`
(tests.cpp) and the Q♠ scoring tests. -/
def score (st : HeartsGameState) (seat : Fin 4) : Int :=
  if !hasFlag st.rules kNoShooting && (List.finRange 4).any (shotMoon st) then
    if shotMoon st seat then 0 else 26
  else basePoints st seat

/-- Terminal state: all thirteen tricks played, every hand empty and no
trick pending (spec §4.B state machine). -/
def isTerminal (st : HeartsGameState) : Bool :=
  (List.finRange 4).all (fun p => (st.cards p).isEmpty) && st.trick.isEmpty

/-- The cards of a trick in play order. -/
def trickCards (t : List (Fin 4 × Nat)) : List Nat := t.map Prod.snd

/-- Modelled from the spec: the winner of a complete trick — the player who
contributed the highest-ranked card of the lead suit (spec §3; lower numeric
rank = higher card). -/
def trickWinner (t : List (Fin 4 × Nat)) : Fin 4 :=
  match t with
  | [] => 0
  | (p, c) :: rest =>
    (rest.foldl
      (fun best x =>
        if Deck.getsuit x.2 == Deck.getsuit c && Deck.getrank x.2 < Deck.getrank best.2
        then x else best)
      (p, c)).1

/-- Whether playing a card breaks hearts: any heart, or Q♠ under
`kQueenBreaksHearts` (spec §4.B `apply`). -/
def breaksHearts (rules c : Nat) : Bool :=
  isHeart c || (hasFlag rules kQueenBreaksHearts && c == queenOfSpades)

/-- Modelled from the spec: `HeartsGameState::ApplyMove` (missing
`Hearts.cpp`; spec §4.B `apply`): place the card into the current trick and
remove it from the acting player's hand; on the fourth card resolve the
winner, move the trick into the winner's taken pile, advance the trick
counter and make the winner the next leader; otherwise the next seat acts. -/
def applyMove (st : HeartsGameState) (c : Nat) : HeartsGameState :=
  let p := st.currPlr
  let hand' := (st.cards p).erase c
  let trick' := st.trick ++ [(p, c)]
  let hb := st.heartsBroken || breaksHearts st.rules c
  if trick'.length = 4 then
    let w := trickWinner trick'
    { st with
      cards := Function.update st.cards p hand'
      trick := []
      taken := Function.update st.taken w (st.taken w ++ trickCards trick')
      currPlr := w
      currTrick := st.currTrick + 1
      heartsBroken := hb }
  else
    { st with
      cards := Function.update st.cards p hand'
      trick := trick'
      currPlr := ⟨(st.currPlr.val + 1) % 4, Nat.mod_lt _ (by omega)⟩
      heartsBroken := hb }

/-- Modelled from the spec: a seat commits three cards to pass (spec §4.B
state machine, Pass step): the cards leave the hand and sit in the seat's
pass buffer until delivery. -/
def commitPass (st : HeartsGameState) (seat : Fin 4) (cs : List Nat) : HeartsGameState :=
  { st with
    cards := Function.update st.cards seat ((st.cards seat).diff cs)
    passed := Function.update st.passed seat (st.passed seat ++ cs) }

/-- Modelled from the spec: the committed cards are rotated per the pass
direction (spec §4.B state machine): seat `q` receives the buffer of seat
`q − d` and every buffer empties. -/
def deliverPass (st : HeartsGameState) (d : Fin 4) : HeartsGameState :=
  { st with
    cards := fun q => st.cards q ++ st.passed (q - d)
    passed := fun _ => [] }

/-- Deal a 52-card list into four 13-card blocks (hand `p` is cards
`13p … 13p+12`). -/
def deal4 (l : List Nat) (p : Fin 4) : List Nat := (l.drop (13 * p.val)).take 13

/-- Modelled from the spec: the state immediately after `DealCards`
(missing `Hearts.cpp`; spec §4.B state machine `Deal`): hands from the
shuffled deck, empty tricks, taken piles and pass buffers. -/
def initialState (l : List Nat) (r : Nat) (pd : Int) (p0 : Fin 4) : HeartsGameState :=
  { rules := r
    passDir := pd
    cards := deal4 l
    taken := fun _ => []
    passed := fun _ => []
    trick := []
    currTrick := 0
    heartsBroken := false
    currPlr := p0 }

/-- Every card in the state, with multiplicity: the four hands, the current
trick, the four taken piles and the four pass buffers. -/
def allCards (st : HeartsGameState) : Multiset Nat :=
  (∑ p : Fin 4, ((st.cards p : List Nat) : Multiset Nat)) +
    (trickCards st.trick : Multiset Nat) +
    (∑ p : Fin 4, ((st.taken p : List Nat) : Multiset Nat)) +
    (∑ p : Fin 4, ((st.passed p : List Nat) : Multiset Nat))

/-- Modelled from the spec: the states the rules engine can reach in a
round — a deal of the 52-card deck followed by legal plays and the passing
exchange (spec §4.B state machine). -/
inductive Reachable : HeartsGameState → Prop
  | deal (l : List Nat) (hl : l.Perm deckList) (r : Nat) (pd : Int) (p0 : Fin 4) :
      Reachable (initialState l r pd p0)
  | play {st : HeartsGameState} {c : Nat} (h : Reachable st) (hc : c ∈ legalMoves st) :
      Reachable (applyMove st c)
  | pass {st : HeartsGameState} (seat : Fin 4) (cs : List Nat) (h : Reachable st)
      (hle : (cs : Multiset Nat) ≤ (st.cards seat : Multiset Nat)) :
      Reachable (commitPass st seat cs)
  | deliver {st : HeartsGameState} (d : Fin 4) (h : Reachable st) :
      Reachable (deliverPass st d)

/-- A state with empty hands and piles, used to instantiate theorems. -/
def emptyState : HeartsGameState :=
  { rules := 0
    passDir := kHold
    cards := fun _ => []
    taken := fun _ => []
    passed := fun _ => []
    trick := []
    currTrick := 0
    heartsBroken := false
    currPlr := 0 }

/-- C10: without `kDoPassCards` in the rules mask, `setPassDir` is a no-op
that leaves the pass direction at `kHold`; with the flag set, `setPassDir d`
makes `getPassDir` return `d`, for every direction in
{`kHold`, `kLeftDir`, `kRightDir`, `kAcrossDir`}. -/
theorem setPassDir_requires_do_pass_cards (st : HeartsGameState) (r : Nat) (d : Int)
    (hd : d = kHold ∨ d = kLeftDir ∨ d = kRightDir ∨ d = kAcrossDir) :
    (r &&& kDoPassCards = 0 → getPassDir (setPassDir (setRules st r) d) = kHold) ∧
    (r &&& kDoPassCards ≠ 0 → getPassDir (setPassDir (setRules st r) d) = d) := by
  constructor <;> intro h <;>
    simp [getPassDir, setPassDir, setRules, hasFlag, h]

/-- Witness for C10: with only `kQueenPenalty` set the direction is forced
to `kHold`; with `kDoPassCards` set it is `kLeftDir`. -/
theorem setPassDir_requires_do_pass_cards_witness :
    getPassDir (setPassDir (setRules emptyState kQueenPenalty) kLeftDir) = kHold ∧
    getPassDir (setPassDir (setRules emptyState (kDoPassCards ||| kQueenPenalty)) kLeftDir) =
      kLeftDir := by
  exact ⟨(setPassDir_requires_do_pass_cards emptyState kQueenPenalty kLeftDir
      (Or.inr (Or.inl rfl))).1 (by decide),
    (setPassDir_requires_do_pass_cards emptyState (kDoPassCards ||| kQueenPenalty) kLeftDir
      (Or.inr (Or.inl rfl))).2 (by decide)⟩

/-- C2: with no seat shooting the moon, `score` follows the flag-driven
table: under `kQueenPenalty`, Q♠ in the seat's taken pile contributes
exactly +13 on top of the heart, jack and no-trick contributions; without
the flag, Q♠ contributes nothing; and with `kHeartsArentPoints` clear each
heart taken contributes exactly +1. -/
theorem score_flag_table (st : HeartsGameState) (seat : Fin 4)
    (hnm : ∀ p : Fin 4, shotMoon st p = false) :
    (hasFlag st.rules kQueenPenalty = true →
      score st seat =
        (if queenOfSpades ∈ st.taken seat then 13 else 0) +
          (heartsPoints st seat + jackPoints st seat + noTrickPoints st seat)) ∧
    (hasFlag st.rules kQueenPenalty = false →
      score st seat = heartsPoints st seat + jackPoints st seat + noTrickPoints st seat) ∧
    (hasFlag st.rules kHeartsArentPoints = false →
      heartsPoints st seat = (heartsTaken st seat : Int)) := by
  have hany : (List.finRange 4).any (shotMoon st) = false := by
    simp only [List.any_eq_false]
    intro p _
    exact (hnm p).symm ▸ (by simp [hnm p])
  have hscore : score st seat = basePoints st seat := by
    simp [score, hany]
  refine ⟨fun hq => ?_, fun hq => ?_, fun hh => ?_⟩
  · rw [hscore]
    unfold basePoints queenPoints
    rw [hq]
    by_cases hmem : queenOfSpades ∈ st.taken seat <;>
      simp [List.contains, hmem, add_assoc]
  · rw [hscore]
    unfold basePoints queenPoints
    simp [hq]
  · simp [heartsPoints, hh]

/-- Taken pile for the C2 witness: seat 0 took Q♠ alone. -/
def qsOnlyState : HeartsGameState :=
  { emptyState with
    rules := kQueenPenalty
    taken := fun p => if p = 0 then [queenOfSpades] else [] }

/-- Taken pile for the C2 witness: seat 0 took Q♠ and three hearts. -/
def qsHeartsState : HeartsGameState :=
  { emptyState with
    rules := kQueenPenalty
    taken := fun p =>
      if p = 0 then
        [queenOfSpades, Deck.getcard HEARTS TWO, Deck.getcard HEARTS THREE,
          Deck.getcard HEARTS FOUR]
      else [] }

/-- Taken pile for the C2 witness: Q♠ taken but `kQueenPenalty` clear. -/
def qsNoPenaltyState : HeartsGameState :=
  { emptyState with
    rules := 0
    taken := fun p => if p = 0 then [queenOfSpades] else [] }

/-- Witness for C2, matching `test_qs_qs_worth_13_points`,
`test_qs_qs_plus_hearts_combined_score` and
`test_queen_penalty_affects_score`: Q♠ alone scores 13, Q♠ plus three
hearts scores 16, and Q♠ without the penalty flag scores 0. -/
theorem score_flag_table_witness :
    score qsOnlyState 0 = 13 ∧ score qsHeartsState 0 = 16 ∧ score qsNoPenaltyState 0 = 0 := by
  refine ⟨?_, ?_, ?_⟩
  · exact ((score_flag_table qsOnlyState 0 (by decide)).1 (by decide)).trans (by decide)
  · exact ((score_flag_table qsHeartsState 0 (by decide)).1 (by decide)).trans (by decide)
  · exact ((score_flag_table qsNoPenaltyState 0 (by decide)).2.1 (by decide)).trans (by decide)

/-- C4: in a terminal state in which exactly one seat shot the moon (took
all hearts, plus Q♠ under `kQueenPenalty` and J♦ under
`kShootingNeedsJack`) and `kNoShooting` is not set, the scores are
rewritten: the shooting seat scores 0 and every other seat scores 26. -/
theorem shooting_the_moon_rewrite (st : HeartsGameState) (p : Fin 4)
    (hterm : isTerminal st = true)
    (hp : shotMoon st p = true)
    (huniq : ∀ q : Fin 4, q ≠ p → shotMoon st q = false)
    (hns : hasFlag st.rules kNoShooting = false) :
    score st p = 0 ∧ ∀ q : Fin 4, q ≠ p → score st q = 26 := by
  have hany : (List.finRange 4).any (shotMoon st) = true :=
    List.any_eq_true.mpr ⟨p, List.mem_finRange p, hp⟩
  constructor
  · simp [score, hany, hns, hp]
  · intro q hq
    simp [score, hany, hns, huniq q hq]

/-- Terminal state for the C4 witness: seat 0 took all thirteen hearts and
Q♠ under `kQueenPenalty`, with shooting enabled. -/
def moonState : HeartsGameState :=
  { emptyState with
    rules := kQueenPenalty
    taken := fun p => if p = 0 then queenOfSpades :: heartsList else []
    currTrick := 13
    heartsBroken := true }

/-- Witness for C4: in `moonState` the shooter scores 0 and the other three
seats score 26 each. -/
theorem shooting_the_moon_rewrite_witness :
    score moonState 0 = 0 ∧ score moonState 1 = 26 ∧ score moonState 2 = 26 ∧
      score moonState 3 = 26 := by
  have h := shooting_the_moon_rewrite moonState 0 (by decide) (by decide)
    (by decide) (by decide)
  exact ⟨h.1, h.2 1 (by decide), h.2 2 (by decide), h.2 3 (by decide)⟩

lemma firstTrickOK_spec {rules c : Nat} (h : firstTrickOK rules c = true) :
    (hasFlag rules kNoHeartsFirstTrick = true → isHeart c = false) ∧
    (hasFlag rules kNoQueenFirstTrick = true → c ≠ queenOfSpades) := by
  unfold firstTrickOK at h
  rw [Bool.and_eq_true, Bool.not_eq_true', Bool.not_eq_true'] at h
  constructor
  · intro hf
    rw [hf] at h
    simpa using h.1
  · intro hf hc
    rw [hf, hc] at h
    simp at h

/-- C1: in the following phase (a trick is under way), if the acting player
holds at least one card of the lead suit then the legal moves are exactly
the lead-suit cards of that player's hand: every returned move is a
lead-suit card from the hand, and every lead-suit card held is returned. -/
theorem follow_suit_moves (st : HeartsGameState) (p0 : Fin 4) (c0 : Nat)
    (rest : List (Fin 4 × Nat)) (ht : st.trick = (p0, c0) :: rest)
    (hfollow : ∃ c ∈ st.cards st.currPlr, Deck.getsuit c = Deck.getsuit c0) :
    ∀ c, c ∈ legalMoves st ↔ c ∈ st.cards st.currPlr ∧ Deck.getsuit c = Deck.getsuit c0 := by
  intro c
  obtain ⟨c', hc', hs'⟩ := hfollow
  have hmem : c' ∈ (st.cards st.currPlr).filter
      (fun x => Deck.getsuit x == Deck.getsuit c0) :=
    List.mem_filter.mpr ⟨hc', by simp [hs']⟩
  have hne : ((st.cards st.currPlr).filter
      (fun x => Deck.getsuit x == Deck.getsuit c0)).isEmpty = false := by
    rw [Bool.eq_false_iff]
    intro habs
    rw [List.isEmpty_iff] at habs
    rw [habs] at hmem
    exact List.not_mem_nil c' hmem
  simp only [legalMoves, ht, hne, Bool.not_false, if_true, List.mem_filter, beq_iff_eq]

/-- The standard rules mask used by the Q♠ test suite
(`getStandardRules`). -/
def standardRules : Nat :=
  kQueenPenalty ||| kLead2Clubs ||| kNoHeartsFirstTrick |||
    kNoQueenFirstTrick ||| kQueenBreaksHearts ||| kMustBreakHearts

/-- The following-phase state of `test_ai_avoids_queen_of_spades`: seat 0
holds Q♥ 7♥ 5♦ 9♥ K♦ J♥ and must complete a trick led with 7♦ (Q♠ and 6♠
sloughed behind it). -/
def followTestState : HeartsGameState :=
  { emptyState with
    rules := standardRules
    cards := fun p =>
      if p = 0 then
        [Deck.getcard HEARTS QUEEN, Deck.getcard HEARTS SEVEN, Deck.getcard DIAMONDS FIVE,
          Deck.getcard HEARTS NINE, Deck.getcard DIAMONDS KING, Deck.getcard HEARTS JACK]
      else []
    trick := [(1, Deck.getcard DIAMONDS SEVEN), (2, queenOfSpades),
      (3, Deck.getcard SPADES SIX)]
    currPlr := 0 }

/-- Witness for C1: on the diamond lead the legal moves are exactly 5♦ and
K♦ — 5♦ is returned and the heart Q♥ is not. -/
theorem follow_suit_moves_witness :
    legalMoves followTestState =
      [Deck.getcard DIAMONDS FIVE, Deck.getcard DIAMONDS KING] ∧
    Deck.getcard DIAMONDS FIVE ∈ legalMoves followTestState ∧
    Deck.getcard HEARTS QUEEN ∉ legalMoves followTestState := by
  have h := follow_suit_moves followTestState 1 (Deck.getcard DIAMONDS SEVEN)
    [(2, queenOfSpades), (3, Deck.getcard SPADES SIX)] rfl
    ⟨Deck.getcard DIAMONDS FIVE, by decide, by decide⟩
  refine ⟨by decide, (h _).mpr ⟨by decide, by decide⟩, fun hmem => ?_⟩
  exact absurd ((h _).mp hmem).2 (by decide)

/-- C5: first-trick restrictions of `legalMoves` (`currTrick = 0`).  With
`kLead2Clubs` set, the holder of 2♣ leading the trick has 2♣ as the only
legal move.  When the player is not obliged to follow suit (leading without
the 2♣ obligation, or void in the led suit) and the hand is not made up
solely of restricted cards, no heart appears among the legal moves under
`kNoHeartsFirstTrick` and Q♠ does not appear under `kNoQueenFirstTrick`. -/
theorem first_trick_restrictions (st : HeartsGameState) (h0 : st.currTrick = 0) :
    (hasFlag st.rules kLead2Clubs = true → st.trick = [] →
      twoOfClubs ∈ st.cards st.currPlr → legalMoves st = [twoOfClubs]) ∧
    ((∀ pc ∈ st.trick.head?, ∀ c ∈ st.cards st.currPlr,
        Deck.getsuit c ≠ Deck.getsuit pc.2) →
      (∃ c ∈ st.cards st.currPlr, firstTrickOK st.rules c = true) →
      ∀ c ∈ legalMoves st,
        (hasFlag st.rules kNoHeartsFirstTrick = true → isHeart c = false) ∧
        (hasFlag st.rules kNoQueenFirstTrick = true → c ≠ queenOfSpades)) := by
  constructor
  · intro hflag htr hmem
    have hcontains : (st.cards st.currPlr).contains twoOfClubs = true := by
      simpa [List.contains] using hmem
    simp only [legalMoves, htr, h0]
    rw [if_pos trivial, if_pos (by rw [hflag, hcontains]; rfl)]
  · intro hvoid hok c hc
    have hokne : ((st.cards st.currPlr).filter (firstTrickOK st.rules)).isEmpty = false := by
      obtain ⟨c', hc', hfk⟩ := hok
      rw [Bool.eq_false_iff]
      intro habs
      rw [List.isEmpty_iff, List.filter_eq_nil_iff] at habs
      exact absurd hfk (by simpa using habs c' hc')
    cases htr : st.trick with
    | nil =>
      rw [legalMoves, htr] at hc
      simp only [h0, if_true] at hc
      by_cases h2c : hasFlag st.rules kLead2Clubs ∧ (st.cards st.currPlr).contains twoOfClubs
      · rw [if_pos (by rw [h2c.1, h2c.2]; rfl)] at hc
        have : c = twoOfClubs := by simpa using hc
        subst this
        exact ⟨fun _ => by decide, fun _ => by decide⟩
      · rw [if_neg (by
          intro habs
          rw [Bool.and_eq_true] at habs
          exact h2c ⟨habs.1, habs.2⟩), hokne] at hc
        simp only [Bool.false_eq_true, if_false] at hc
        exact firstTrickOK_spec (List.mem_filter.mp hc).2
    | cons pc rest =>
      have hfollow : ((st.cards st.currPlr).filter
          (fun x => Deck.getsuit x == Deck.getsuit pc.2)).isEmpty = true := by
        rw [List.isEmpty_iff, List.filter_eq_nil_iff]
        intro a ha
        have := hvoid pc (by rw [htr]; rfl) a ha
        simpa using this
      rw [legalMoves, htr] at hc
      obtain ⟨p1, c1⟩ := pc
      simp only [hfollow, Bool.not_true, Bool.false_eq_true, if_false, h0, if_true,
        hokne] at hc
      exact firstTrickOK_spec (List.mem_filter.mp hc).2

/-- The first-trick state of `test_qs_cannot_play_qs_on_first_trick`:
seat 0 holds Q♠ 5♠ 2♦ 3♦ 2♥, holds no club, and must discard on the 2♣
lead of the first trick. -/
def qsFirstTrickState : HeartsGameState :=
  { emptyState with
    rules := kQueenPenalty ||| kLead2Clubs ||| kNoHeartsFirstTrick ||| kNoQueenFirstTrick
    cards := fun p =>
      if p = 0 then
        [queenOfSpades, Deck.getcard SPADES FIVE, Deck.getcard DIAMONDS TWO,
          Deck.getcard DIAMONDS THREE, Deck.getcard HEARTS TWO]
      else []
    trick := [(1, twoOfClubs)]
    currPlr := 0 }

/-- A first-trick leading state whose acting seat holds the 2♣. -/
def lead2ClubsState : HeartsGameState :=
  { emptyState with
    rules := standardRules
    cards := fun p =>
      if p = 0 then
        [twoOfClubs, Deck.getcard CLUBS THREE, Deck.getcard SPADES FOUR]
      else []
    currPlr := 0 }

/-- Witness for C5: the 2♣ holder must lead 2♣, and on the first trick the
discarding seat may play neither Q♠ nor any heart. -/
theorem first_trick_restrictions_witness :
    legalMoves lead2ClubsState = [twoOfClubs] ∧
    queenOfSpades ∉ legalMoves qsFirstTrickState ∧
    ∀ c ∈ legalMoves qsFirstTrickState, isHeart c = false := by
  have h1 := (first_trick_restrictions lead2ClubsState rfl).1 (by decide) rfl (by decide)
  have h2 := (first_trick_restrictions qsFirstTrickState rfl).2
    (by
      intro pc hpc
      rw [Option.mem_def] at hpc
      have hpc' : pc = (1, twoOfClubs) := by
        simpa [qsFirstTrickState] using hpc.symm
      subst hpc'
      decide)
    ⟨Deck.getcard SPADES FIVE, by decide, by decide⟩
  refine ⟨h1, fun hmem => ?_, fun c hc => (h2 c hc).1 (by decide)⟩
  exact absurd rfl ((h2 _ hmem).2 (by decide))

/-- Embedded from `src/server/AIRequestHandler.cpp`, `handle_get_move`
lines 152–184: after `getMoves`, an empty move list is the `NO_LEGAL_MOVES`
error; a single legal move is returned directly ("Single legal move,
skipping AI"); otherwise `compute_ai_move` runs the world-sampling search,
modelled here by the `aiMove` argument.  The boolean records whether the
AI search ran. -/
def handleGetMoveChoice (legal : List Nat) (aiMove : Nat) : Option (Nat × Bool) :=
  match legal with
  | [] => none
  | [c] => some (c, false)
  | _ => some (aiMove, true)

/-- C3: when the observed state has exactly one legal move, the server's
move handler returns that card without running the world-sampling search:
the result is the single card, the ran-AI flag is false, and the outcome is
independent of whatever the search would have returned. -/
theorem single_legal_move_short_circuit (st : HeartsGameState) (c : Nat)
    (h : legalMoves st = [c]) :
    (∀ aiMove : Nat, handleGetMoveChoice (legalMoves st) aiMove = some (c, false)) ∧
    (∀ a1 a2 : Nat,
      handleGetMoveChoice (legalMoves st) a1 = handleGetMoveChoice (legalMoves st) a2) := by
  constructor
  · intro aiMove
    rw [h]
    rfl
  · intro a1 a2
    rw [h]
    rfl

/-- The short-circuit scenario of spec §8: the caller must follow a diamond
lead and holds the singleton 8♦ in diamonds. -/
def singletonFollowState : HeartsGameState :=
  { emptyState with
    rules := standardRules
    cards := fun p =>
      if p = 0 then
        [Deck.getcard DIAMONDS EIGHT, Deck.getcard SPADES TWO, Deck.getcard CLUBS THREE]
      else []
    trick := [(1, Deck.getcard DIAMONDS FIVE)]
    currTrick := 3
    currPlr := 0 }

/-- Witness for C3: with the singleton 8♦ as only legal move, the handler
answers 8♦ with the AI not consulted, whatever the search oracle says. -/
theorem single_legal_move_short_circuit_witness :
    handleGetMoveChoice (legalMoves singletonFollowState) 99 =
      some (Deck.getcard DIAMONDS EIGHT, false) ∧
    handleGetMoveChoice (legalMoves singletonFollowState) 99 =
      handleGetMoveChoice (legalMoves singletonFollowState) 7 := by
  have h := single_legal_move_short_circuit singletonFollowState
    (Deck.getcard DIAMONDS EIGHT) (by decide)
  exact ⟨h.1 99, h.2 99 7⟩

lemma mem_of_mem_legalMoves {st : HeartsGameState} {c : Nat} (h : c ∈ legalMoves st) :
    c ∈ st.cards st.currPlr := by
  cases htr : st.trick with
  | nil =>
    simp only [legalMoves, htr] at h
    split at h
    · split at h
      · rename_i hcond
        have hc : c = twoOfClubs := by simpa using h
        subst hc
        rw [Bool.and_eq_true] at hcond
        simpa [List.contains] using hcond.2
      · split at h
        · exact h
        · exact (List.mem_filter.mp h).1
    · split at h
      · split at h
        · exact h
        · exact (List.mem_filter.mp h).1
      · exact h
  | cons pc rest =>
    obtain ⟨p1, c1⟩ := pc
    simp only [legalMoves, htr] at h
    split at h
    · exact (List.mem_filter.mp h).1
    · split at h
      · split at h
        · exact h
        · exact (List.mem_filter.mp h).1
      · exact h

lemma coe_update_multiset (f : Fin 4 → List Nat) (p : Fin 4) (v : List Nat) (q : Fin 4) :
    ((Function.update f p v q : List Nat) : Multiset Nat) =
      Function.update (fun x => ((f x : List Nat) : Multiset Nat)) p (v : Multiset Nat) q := by
  by_cases h : q = p <;> simp [Function.update_apply, h]

lemma sum_update_add (g : Fin 4 → Multiset Nat) (p : Fin 4) (v : Multiset Nat) :
    (∑ q : Fin 4, Function.update g p v q) + g p = (∑ q : Fin 4, g q) + v := by
  rw [Finset.sum_update_of_mem (Finset.mem_univ p), Finset.sdiff_singleton_eq_erase,
    ← Finset.add_sum_erase Finset.univ g (Finset.mem_univ p)]
  abel

lemma coe_cards_eq_cons {l : List Nat} {c : Nat} (h : c ∈ l) :
    (l : Multiset Nat) = {c} + ((l.erase c : List Nat) : Multiset Nat) := by
  rw [Multiset.singleton_add]
  exact Multiset.coe_eq_coe.mpr (List.perm_cons_erase h)

lemma coe_append_multiset (l1 l2 : List Nat) :
    ((l1 ++ l2 : List Nat) : Multiset Nat) = (l1 : Multiset Nat) + (l2 : Multiset Nat) :=
  (Multiset.coe_add l1 l2).symm

lemma allCards_applyMove (st : HeartsGameState) (c : Nat)
    (hc : c ∈ st.cards st.currPlr) :
    allCards (applyMove st c) = allCards st := by
  have hhand := coe_cards_eq_cons hc
  have htrick : ((trickCards (st.trick ++ [(st.currPlr, c)]) : List Nat) : Multiset Nat) =
      ((trickCards st.trick : List Nat) : Multiset Nat) + {c} := by
    have h := coe_append_multiset (trickCards st.trick) [c]
    simpa [trickCards] using h
  simp only [applyMove]
  by_cases h4 : (st.trick ++ [(st.currPlr, c)]).length = 4
  · rw [if_pos h4]
    unfold allCards
    dsimp only
    rw [Finset.sum_congr rfl fun q _ =>
      coe_update_multiset st.cards st.currPlr ((st.cards st.currPlr).erase c) q]
    rw [Finset.sum_congr rfl fun q _ =>
      coe_update_multiset st.taken (trickWinner (st.trick ++ [(st.currPlr, c)]))
        (st.taken (trickWinner (st.trick ++ [(st.currPlr, c)])) ++
          trickCards (st.trick ++ [(st.currPlr, c)])) q]
    have h1 := sum_update_add (fun x => ((st.cards x : List Nat) : Multiset Nat))
      st.currPlr (((st.cards st.currPlr).erase c : List Nat) : Multiset Nat)
    have h2 := sum_update_add (fun x => ((st.taken x : List Nat) : Multiset Nat))
      (trickWinner (st.trick ++ [(st.currPlr, c)]))
      (((st.taken (trickWinner (st.trick ++ [(st.currPlr, c)])) ++
          trickCards (st.trick ++ [(st.currPlr, c)]) : List Nat) : Multiset Nat))
    apply add_right_cancel (b := ((st.cards st.currPlr : List Nat) : Multiset Nat) +
      ((st.taken (trickWinner (st.trick ++ [(st.currPlr, c)])) : List Nat) : Multiset Nat))
    calc
      _ = ((∑ q : Fin 4, (Function.update
              (fun x => ((st.cards x : List Nat) : Multiset Nat)) st.currPlr
              (((st.cards st.currPlr).erase c : List Nat) : Multiset Nat) q)) +
            ((st.cards st.currPlr : List Nat) : Multiset Nat)) +
          (((∑ q : Fin 4, (Function.update
              (fun x => ((st.taken x : List Nat) : Multiset Nat))
              (trickWinner (st.trick ++ [(st.currPlr, c)]))
              (((st.taken (trickWinner (st.trick ++ [(st.currPlr, c)])) ++
                  trickCards (st.trick ++ [(st.currPlr, c)]) : List Nat) : Multiset Nat)) q)) +
            ((st.taken (trickWinner (st.trick ++ [(st.currPlr, c)])) : List Nat) :
              Multiset Nat)) +
            (((trickCards ([] : List (Fin 4 × Nat)) : List Nat) : Multiset Nat) +
              ∑ q : Fin 4, ((st.passed q : List Nat) : Multiset Nat))) := by
        abel
      _ = _ := by
        rw [h1, h2, coe_append_multiset, htrick, hhand]
        simp only [trickCards, List.map_nil, Multiset.coe_nil]
        abel
  · rw [if_neg h4]
    unfold allCards
    dsimp only
    rw [Finset.sum_congr rfl fun q _ =>
      coe_update_multiset st.cards st.currPlr ((st.cards st.currPlr).erase c) q]
    have h1 := sum_update_add (fun x => ((st.cards x : List Nat) : Multiset Nat))
      st.currPlr (((st.cards st.currPlr).erase c : List Nat) : Multiset Nat)
    apply add_right_cancel (b := ((st.cards st.currPlr : List Nat) : Multiset Nat))
    calc
      _ = ((∑ q : Fin 4, (Function.update
              (fun x => ((st.cards x : List Nat) : Multiset Nat)) st.currPlr
              (((st.cards st.currPlr).erase c : List Nat) : Multiset Nat) q)) +
            ((st.cards st.currPlr : List Nat) : Multiset Nat)) +
          (((trickCards (st.trick ++ [(st.currPlr, c)]) : List Nat) : Multiset Nat) +
            ((∑ q : Fin 4, ((st.taken q : List Nat) : Multiset Nat)) +
              ∑ q : Fin 4, ((st.passed q : List Nat) : Multiset Nat))) := by
        abel
      _ = _ := by
        rw [h1, htrick, hhand]
        abel

lemma allCards_commitPass (st : HeartsGameState) (seat : Fin 4) (cs : List Nat)
    (hle : (cs : Multiset Nat) ≤ (st.cards seat : Multiset Nat)) :
    allCards (commitPass st seat cs) = allCards st := by
  have hdiff : (((st.cards seat).diff cs : List Nat) : Multiset Nat) + (cs : Multiset Nat) =
      ((st.cards seat : List Nat) : Multiset Nat) := by
    rw [← Multiset.coe_sub]
    exact tsub_add_cancel_of_le hle
  simp only [commitPass]
  unfold allCards
  dsimp only
  rw [Finset.sum_congr rfl fun q _ =>
    coe_update_multiset st.cards seat ((st.cards seat).diff cs) q]
  rw [Finset.sum_congr rfl fun q _ =>
    coe_update_multiset st.passed seat (st.passed seat ++ cs) q]
  have h1 := sum_update_add (fun x => ((st.cards x : List Nat) : Multiset Nat))
    seat (((st.cards seat).diff cs : List Nat) : Multiset Nat)
  have h2 := sum_update_add (fun x => ((st.passed x : List Nat) : Multiset Nat))
    seat (((st.passed seat ++ cs : List Nat) : Multiset Nat))
  apply add_right_cancel (b := ((st.cards seat : List Nat) : Multiset Nat) +
    ((st.passed seat : List Nat) : Multiset Nat))
  calc
    _ = ((∑ q : Fin 4, (Function.update
            (fun x => ((st.cards x : List Nat) : Multiset Nat)) seat
            (((st.cards seat).diff cs : List Nat) : Multiset Nat) q)) +
          ((st.cards seat : List Nat) : Multiset Nat)) +
        (((∑ q : Fin 4, (Function.update
            (fun x => ((st.passed x : List Nat) : Multiset Nat)) seat
            (((st.passed seat ++ cs : List Nat) : Multiset Nat)) q)) +
          ((st.passed seat : List Nat) : Multiset Nat)) +
          (((trickCards st.trick : List Nat) : Multiset Nat) +
            ∑ q : Fin 4, ((st.taken q : List Nat) : Multiset Nat))) := by
      abel
    _ = _ := by
      rw [h1, h2, coe_append_multiset, ← hdiff]
      abel

lemma allCards_deliverPass (st : HeartsGameState) (d : Fin 4) :
    allCards (deliverPass st d) = allCards st := by
  unfold deliverPass allCards
  dsimp only
  have hshift : (∑ q : Fin 4, ((st.passed (q - d) : List Nat) : Multiset Nat)) =
      ∑ q : Fin 4, ((st.passed q : List Nat) : Multiset Nat) :=
    Fintype.sum_equiv (Equiv.subRight d) _ _ fun q => rfl
  calc
    _ = (∑ q : Fin 4, (((st.cards q : List Nat) : Multiset Nat) +
          ((st.passed (q - d) : List Nat) : Multiset Nat))) +
        ((trickCards st.trick : List Nat) : Multiset Nat) +
        (∑ q : Fin 4, ((st.taken q : List Nat) : Multiset Nat)) +
        (∑ _q : Fin 4, (0 : Multiset Nat)) := by
      rw [Finset.sum_congr rfl fun q _ => coe_append_multiset (st.cards q) (st.passed (q - d))]
      simp
    _ = _ := by
      rw [Finset.sum_add_distrib, hshift]
      simp only [Finset.sum_const_zero]
      abel

lemma deal4_decomp (l : List Nat) (hlen : l.length = 52) :
    deal4 l 0 ++ (deal4 l 1 ++ (deal4 l 2 ++ deal4 l 3)) = l := by
  have h3 : deal4 l 3 = l.drop 39 := by
    unfold deal4
    have h39 : (13 * ((3 : Fin 4)).val) = 39 := rfl
    rw [h39]
    apply List.take_of_length_le
    rw [List.length_drop, hlen]
  rw [h3]
  show l.take 13 ++ ((l.drop 13).take 13 ++ ((l.drop 26).take 13 ++ l.drop 39)) = l
  have e39 : l.drop 39 = (l.drop 26).drop 13 := by
    rw [List.drop_drop]
  have e26 : l.drop 26 = (l.drop 13).drop 13 := by
    rw [List.drop_drop]
  rw [e39, List.take_append_drop, e26, List.take_append_drop, List.take_append_drop]

lemma allCards_initialState (l : List Nat) (hl : l.Perm deckList) (r : Nat) (pd : Int)
    (p0 : Fin 4) : allCards (initialState l r pd p0) = (deckList : Multiset Nat) := by
  have hlen : l.length = 52 := by
    rw [hl.length_eq]
    rfl
  unfold allCards initialState
  dsimp only
  simp only [trickCards, List.map_nil, Multiset.coe_nil, Finset.sum_const_zero]
  rw [Fin.sum_univ_four]
  have hjoin : (((deal4 l 0 : List Nat) : Multiset Nat) + ((deal4 l 1 : List Nat) : Multiset Nat) +
      ((deal4 l 2 : List Nat) : Multiset Nat) + ((deal4 l 3 : List Nat) : Multiset Nat)) =
      ((deal4 l 0 ++ (deal4 l 1 ++ (deal4 l 2 ++ deal4 l 3)) : List Nat) : Multiset Nat) := by
    rw [coe_append_multiset, coe_append_multiset, coe_append_multiset]
    abel
  rw [add_zero, add_zero, add_zero, hjoin, deal4_decomp l hlen]
  exact Multiset.coe_eq_coe.mpr hl

/-- C6: deck conservation is an invariant of every reachable state — the
hands, the current trick, the taken piles and the committed-but-undelivered
pass buffers together hold exactly the 52-card deck, each card once; and
immediately after dealing a 52-card shuffle every seat holds exactly 13
cards, the four hands totalling 52. -/
theorem deck_conservation (st : HeartsGameState) (h : Reachable st) :
    allCards st = (deckList : Multiset Nat) ∧
    (∀ c ∈ deckList, (allCards st).count c = 1) ∧
    (∀ l : List Nat, l.Perm deckList →
      (∀ p : Fin 4, (deal4 l p).length = 13) ∧
        (∑ p : Fin 4, (deal4 l p).length) = 52) := by
  have hmain : allCards st = (deckList : Multiset Nat) := by
    induction h with
    | deal l hl r pd p0 => exact allCards_initialState l hl r pd p0
    | play h hc ih => rw [allCards_applyMove _ _ (mem_of_mem_legalMoves hc), ih]
    | pass seat cs h hle ih => rw [allCards_commitPass _ _ _ hle, ih]
    | deliver d h ih => rw [allCards_deliverPass, ih]
  refine ⟨hmain, fun c hc => ?_, fun l hl => ?_⟩
  · rw [hmain]
    exact (by decide : ∀ c ∈ deckList, ((deckList : List Nat) : Multiset Nat).count c = 1) c hc
  · have hlen : l.length = 52 := by
      rw [hl.length_eq]
      rfl
    have hp : ∀ p : Fin 4, (deal4 l p).length = 13 := by
      intro p
      have hp3 : p.val < 4 := p.isLt
      unfold deal4
      rw [List.length_take, List.length_drop, hlen]
      omega
    refine ⟨hp, ?_⟩
    rw [Fin.sum_univ_four, hp 0, hp 1, hp 2, hp 3]

/-- Witness for C6: the round-robin deal of the sorted deck is reachable
and conserves the deck. -/
theorem deck_conservation_witness :
    allCards (initialState deckList standardRules kHold 0) = (deckList : Multiset Nat) ∧
    (deal4 deckList 0).length = 13 := by
  have h := deck_conservation (initialState deckList standardRules kHold 0)
    (Reachable.deal deckList (List.Perm.refl deckList) standardRules kHold 0)
  exact ⟨h.1, (h.2.2 deckList (List.Perm.refl deckList)).1 0⟩

/-- Modelled from the spec: the per-move statistics one world's UCT search
reports to the driver (spec §4.E return value: `n(a)`, the reward sum, and
the world weight carried alongside). -/
structure MoveStat where
  move : Nat
  visits : Nat
  rewardSum : ℚ
  deriving DecidableEq

/-- Modelled from the spec: one world's result, `move → (visits,
reward-sum)` plus the world weight (spec §4.F aggregation input). -/
structure WorldResult where
  weight : ℚ
  entries : List MoveStat
  deriving DecidableEq

/-- Total visits a world gave a root move. -/
def visitsOf (r : WorldResult) (m : Nat) : Nat :=
  ((r.entries.filter fun e => e.move == m).map fun e => e.visits).sum

/-- Total reward a world accumulated for a root move. -/
def rewardOf (r : WorldResult) (m : Nat) : ℚ :=
  ((r.entries.filter fun e => e.move == m).map fun e => e.rewardSum).sum

/-- Whether the move was legal (was reported at all) in the world. -/
def hasMove (r : WorldResult) (m : Nat) : Bool :=
  r.entries.any fun e => e.move == m

/-- Mean reward of a move in one world (0 when unvisited, by rational
division by zero). -/
def meanReward (r : WorldResult) (m : Nat) : ℚ :=
  rewardOf r m / (visitsOf r m : ℚ)

/-- The decision rules of spec §4.F. -/
inductive DecisionRule where
  | maxWeighted
  | maxAverage
  | maxAvgMinusVar (lam : ℚ)
  | maxMin
  deriving DecidableEq

/-- Modelled from the spec: the driver's per-move aggregate over the world
results (spec §4.F aggregation table): `max_weighted` weights each world by
`world_weight · visits`; `max_average` is the mean over worlds where the
move is legal; `max_avg_minus_var` subtracts `λ·variance`; `max_min` is the
worst per-world mean. -/
def aggScore : DecisionRule → List WorldResult → Nat → ℚ
  | .maxWeighted, ws, m =>
    ((ws.map fun r => r.weight * (visitsOf r m : ℚ) * meanReward r m).sum) /
      ((ws.map fun r => r.weight * (visitsOf r m : ℚ)).sum)
  | .maxAverage, ws, m =>
    (((ws.filter fun r => hasMove r m).map fun r => meanReward r m).sum) /
      (((ws.filter fun r => hasMove r m).length : ℚ))
  | .maxAvgMinusVar lam, ws, m =>
    let xs := (ws.filter fun r => hasMove r m).map fun r => meanReward r m
    let n : ℚ := (xs.length : ℚ)
    let mean := xs.sum / n
    mean - lam * ((xs.map fun x => x * x).sum / n - mean * mean)
  | .maxMin, ws, m =>
    WithTop.untop' 0 (((ws.filter fun r => hasMove r m).map fun r => meanReward r m).minimum)

/-- Aggregate visit count of a move across the worlds (spec §4.F
tie-break). -/
def aggVisits (ws : List WorldResult) (m : Nat) : Nat :=
  (ws.map fun r => visitsOf r m).sum

/-- Whether move `m` beats the current best: higher aggregate score, ties
by higher aggregate visits, then by lower card encoding. -/
def betterMove (score : Nat → ℚ) (visits : Nat → Nat) (m best : Nat) : Bool :=
  decide (score best < score m) ||
    (decide (score m = score best) &&
      (decide (visits best < visits m) ||
        (decide (visits m = visits best) && decide (m < best))))

/-- Modelled from the spec: the driver's final choice — the candidate move
(legal in the observed state) maximising the aggregate score under the
given rule, with the spec §4.F tie-breaking. -/
def chooseBest (rule : DecisionRule) (ms : List Nat) (ws : List WorldResult) : Nat :=
  match ms with
  | [] => 0
  | m0 :: rest =>
    rest.foldl
      (fun best m => if betterMove (aggScore rule ws) (aggVisits ws) m best then m else best)
      m0

lemma minimum_perm {l1 l2 : List ℚ} (h : l1.Perm l2) : l1.minimum = l2.minimum := by
  induction h with
  | nil => rfl
  | cons x h ih => rw [List.minimum_cons, List.minimum_cons, ih]
  | swap x y l =>
    rw [List.minimum_cons, List.minimum_cons, List.minimum_cons, List.minimum_cons,
      ← min_assoc, ← min_assoc, min_comm (y : WithTop ℚ) (x : WithTop ℚ)]
  | trans h1 h2 ih1 ih2 => exact ih1.trans ih2

lemma aggScore_perm (rule : DecisionRule) {ws1 ws2 : List WorldResult}
    (h : ws1.Perm ws2) : ∀ m, aggScore rule ws1 m = aggScore rule ws2 m := by
  intro m
  cases rule with
  | maxWeighted =>
    simp only [aggScore]
    rw [(h.map _).sum_eq, (h.map _).sum_eq]
  | maxAverage =>
    simp only [aggScore]
    rw [((h.filter _).map _).sum_eq, (h.filter _).length_eq]
  | maxAvgMinusVar lam =>
    simp only [aggScore]
    rw [((h.filter _).map _).sum_eq, (((h.filter _).map _).map _).sum_eq,
      ((h.filter _).map _).length_eq]
  | maxMin =>
    simp only [aggScore]
    rw [minimum_perm ((h.filter _).map _)]

lemma aggVisits_perm {ws1 ws2 : List WorldResult} (h : ws1.Perm ws2) :
    ∀ m, aggVisits ws1 m = aggVisits ws2 m := by
  intro m
  unfold aggVisits
  rw [(h.map _).sum_eq]

/-- C8: the driver's aggregation is order-independent for every supported
decision rule: for any two arrival orders of the same multiset of world
results, the per-move aggregate scores coincide and the chosen move is
identical. -/
theorem aggregation_order_invariant (rule : DecisionRule) (ms : List Nat)
    (ws1 ws2 : List WorldResult) (h : ws1.Perm ws2) :
    (∀ m, aggScore rule ws1 m = aggScore rule ws2 m) ∧
    chooseBest rule ms ws1 = chooseBest rule ms ws2 := by
  refine ⟨aggScore_perm rule h, ?_⟩
  cases ms with
  | nil => rfl
  | cons m0 rest =>
    unfold chooseBest
    have hfun : (fun best m =>
        if betterMove (aggScore rule ws1) (aggVisits ws1) m best then m else best) =
        (fun best m =>
          if betterMove (aggScore rule ws2) (aggVisits ws2) m best then m else best) := by
      funext best m
      rw [show betterMove (aggScore rule ws1) (aggVisits ws1) m best =
          betterMove (aggScore rule ws2) (aggVisits ws2) m best by
        unfold betterMove
        rw [aggScore_perm rule h, aggScore_perm rule h, aggVisits_perm h, aggVisits_perm h]]
    rw [hfun]

/-- A sample world result for the C8 witness: 5♦ visited 3 times for
reward 6, K♦ once for reward −2, weight 1. -/
def sampleWorldA : WorldResult :=
  { weight := 1
    entries := [{ move := Deck.getcard DIAMONDS FIVE, visits := 3, rewardSum := 6 },
      { move := Deck.getcard DIAMONDS KING, visits := 1, rewardSum := -2 }] }

/-- A second sample world result for the C8 witness. -/
def sampleWorldB : WorldResult :=
  { weight := 1
    entries := [{ move := Deck.getcard DIAMONDS FIVE, visits := 2, rewardSum := 2 },
      { move := Deck.getcard DIAMONDS KING, visits := 2, rewardSum := 2 }] }

/-- Witness for C8: swapping the arrival order of two world results changes
neither the aggregate score of 5♦ nor the chosen move. -/
theorem aggregation_order_invariant_witness :
    aggScore DecisionRule.maxAverage [sampleWorldA, sampleWorldB]
        (Deck.getcard DIAMONDS FIVE) =
      aggScore DecisionRule.maxAverage [sampleWorldB, sampleWorldA]
        (Deck.getcard DIAMONDS FIVE) ∧
    chooseBest DecisionRule.maxAverage
        [Deck.getcard DIAMONDS FIVE, Deck.getcard DIAMONDS KING]
        [sampleWorldA, sampleWorldB] =
      chooseBest DecisionRule.maxAverage
        [Deck.getcard DIAMONDS FIVE, Deck.getcard DIAMONDS KING]
        [sampleWorldB, sampleWorldA] := by
  have h := aggregation_order_invariant DecisionRule.maxAverage
    [Deck.getcard DIAMONDS FIVE, Deck.getcard DIAMONDS KING]
    [sampleWorldA, sampleWorldB] [sampleWorldB, sampleWorldA]
    (List.Perm.swap sampleWorldB sampleWorldA [])
  exact ⟨h.1 (Deck.getcard DIAMONDS FIVE), h.2⟩

/-- Modelled from the spec: a deterministic pseudo-random step standing for
the seeded Mersenne-Twister `mt_random` of the missing sources (spec §4.C:
"the pseudo-random source … must be seeded per worker";
`TestMtRandom_Seeding` pins that equal seeds give equal streams). -/
def rngNext (s : Nat) : Nat := (1103515245 * s + 12345) % 2147483648

/-- Modelled from the spec: a playout — repeatedly pick a pseudo-random
legal move and apply it until the state has no moves or the fuel runs out
(spec §4.C uniform mode). -/
def playoutFrom : Nat → HeartsGameState → Nat → HeartsGameState
  | 0, st, _ => st
  | fuel + 1, st, seed =>
    match legalMoves st with
    | [] => st
    | ms => playoutFrom fuel (applyMove st (ms.getD (seed % ms.length) 0)) (rngNext seed)

/-- Modelled from the spec: the root-edge statistics one determinized world
contributes — for each candidate move, the negated score the acting seat
reaches by a seeded playout after that move (spec §4.E simulation and
back-propagation, collapsed to a single rollout per edge). -/
def evalWorld (st : HeartsGameState) (seed : Nat) (ms : List Nat) : WorldResult :=
  { weight := 1
    entries := ms.map fun m =>
      { move := m
        visits := 1
        rewardSum :=
          -((score (playoutFrom 52 (applyMove st m) (rngNext (seed + m))) st.currPlr : ℚ)) } }

/-- Modelled from the spec: the decision configuration of `choose_move`
(spec §4.G; the server's `AIConfig` carries the same fields). -/
structure AIConfig where
  simulations : Nat
  worlds : Nat
  epsilon : ℚ
  useThreads : Bool
  deriving DecidableEq

/-- Modelled from the spec: `choose_move(observed_state, config)` (spec
§4.G): short-circuit on a single legal move, otherwise draw the configured
number of worlds from the seed and aggregate their results.  Threaded
execution consumes worker seeds in completion order, modelled by the
`arrival` list; single-threaded execution processes worlds in submission
order and never consults `arrival`. -/
def chooseMove (st : HeartsGameState) (cfg : AIConfig) (seed : Nat)
    (arrival : List Nat) : Option Nat :=
  match legalMoves st with
  | [] => none
  | [c] => some c
  | ms =>
    let order := if cfg.useThreads then arrival else List.range cfg.worlds
    let results := order.map fun i => evalWorld st (rngNext (seed + i)) ms
    some (chooseBest DecisionRule.maxAverage ms results)

/-- C7: the decision operation is deterministic as a two-run property —
two invocations of `chooseMove` with identical observed state, identical
configuration and identical seed, with threading disabled, return the same
card whatever completion orders the two runs would have seen. -/
theorem choose_move_deterministic (st1 st2 : HeartsGameState) (cfg1 cfg2 : AIConfig)
    (seed1 seed2 : Nat) (arr1 arr2 : List Nat)
    (hst : st1 = st2) (hcfg : cfg1 = cfg2) (hseed : seed1 = seed2)
    (hth : cfg1.useThreads = false) :
    chooseMove st1 cfg1 seed1 arr1 = chooseMove st2 cfg2 seed2 arr2 := by
  subst hst
  subst hcfg
  subst hseed
  cases hls : legalMoves st1 with
  | nil => simp only [chooseMove, hls]
  | cons m0 tail =>
    cases tail with
    | nil => simp only [chooseMove, hls]
    | cons m1 rest =>
      simp only [chooseMove, hls, hth, Bool.false_eq_true, if_false]

/-- Witness for C7: on the two-move following state, two single-threaded
runs with seed 5 and different would-be completion orders agree. -/
theorem choose_move_deterministic_witness :
    chooseMove followTestState
        { simulations := 100, worlds := 2, epsilon := 0, useThreads := false } 5 [1, 0] =
      chooseMove followTestState
        { simulations := 100, worlds := 2, epsilon := 0, useThreads := false } 5 [0, 1] :=
  choose_move_deterministic followTestState followTestState
    { simulations := 100, worlds := 2, epsilon := 0, useThreads := false }
    { simulations := 100, worlds := 2, epsilon := 0, useThreads := false }
    5 5 [1, 0] [0, 1] rfl rfl rfl rfl

/-- Modelled from the spec: the ownership-relevant part of a `UCT` search
object (missing `UCT.cpp`) — which playout module it references and whether
it owns it.  Spec §5 ownership discipline: the tree exclusively owns its
playout policy; clones share it as a non-owning reference.  Behaviour
pinned by `TestUCT_CloneDoesNotOwnModule` and `TestUCT_DeleteOrder` in the
resource-leak test suite. -/
structure UCTAlg where
  moduleId : Option Nat
  ownsModule : Bool
  deriving DecidableEq

/-- A freshly constructed `UCT` with no playout module. -/
def newUCT : UCTAlg := { moduleId := none, ownsModule := false }

/-- `UCT::setPlayoutModule`: the search takes ownership of the module. -/
def setPlayoutModule (u : UCTAlg) (m : Nat) : UCTAlg :=
  { u with moduleId := some m, ownsModule := true }

/-- Cloning a `UCT` (copy constructor or `clone()`): the clone references
the same module but never owns it. -/
def cloneUCT (u : UCTAlg) : UCTAlg :=
  { moduleId := u.moduleId, ownsModule := false }

/-- Whether destroying the object deletes the referenced module: only an
owning reference deletes. -/
def destructorDeletesModule (u : UCTAlg) : Bool := u.ownsModule

/-- How many times the shared module is deleted over a destruction order. -/
def moduleDeletions (order : List UCTAlg) : Nat :=
  order.countP destructorDeletesModule

/-- C9: an original `UCT` owning its playout module together with any
number of clones: destroying only clones, in any order, never deletes the
module; destroying all objects, in any order, deletes it exactly once; and
the only object whose destruction deletes it is the owning original. -/
theorem uct_module_ownership (n : Nat) (m : Nat) (order clOrder : List UCTAlg)
    (horder : order.Perm (setPlayoutModule newUCT m ::
      List.replicate n (cloneUCT (setPlayoutModule newUCT m))))
    (hcl : clOrder.Perm (List.replicate n (cloneUCT (setPlayoutModule newUCT m)))) :
    moduleDeletions clOrder = 0 ∧
    moduleDeletions order = 1 ∧
    (∀ u ∈ order, destructorDeletesModule u = true → u = setPlayoutModule newUCT m) := by
  have hrep : ∀ k : Nat,
      (List.replicate k (cloneUCT (setPlayoutModule newUCT m))).countP
        destructorDeletesModule = 0 := by
    intro k
    induction k with
    | zero => rfl
    | succ k ih =>
      simp [List.replicate_succ, List.countP_cons, destructorDeletesModule, cloneUCT, ih]
  refine ⟨?_, ?_, ?_⟩
  · rw [moduleDeletions, hcl.countP_eq]
    exact hrep n
  · rw [moduleDeletions, horder.countP_eq, List.countP_cons]
    rw [hrep n]
    simp [destructorDeletesModule, setPlayoutModule]
  · intro u hu hdel
    have hu' := horder.mem_iff.mp hu
    rcases List.mem_cons.mp hu' with h | h
    · exact h
    · have : u = cloneUCT (setPlayoutModule newUCT m) := List.eq_of_mem_replicate h
      rw [this] at hdel
      exact absurd hdel (by simp [destructorDeletesModule, cloneUCT])

/-- Witness for C9: one original and three clones; deleting the clones
alone deletes nothing, deleting all four in the order
clone, original, clone, clone deletes the module exactly once. -/
theorem uct_module_ownership_witness :
    moduleDeletions
        [cloneUCT (setPlayoutModule newUCT 7), cloneUCT (setPlayoutModule newUCT 7),
          cloneUCT (setPlayoutModule newUCT 7)] = 0 ∧
    moduleDeletions
        [cloneUCT (setPlayoutModule newUCT 7), setPlayoutModule newUCT 7,
          cloneUCT (setPlayoutModule newUCT 7), cloneUCT (setPlayoutModule newUCT 7)] = 1 := by
  have h := uct_module_ownership 3 7
    [cloneUCT (setPlayoutModule newUCT 7), setPlayoutModule newUCT 7,
      cloneUCT (setPlayoutModule newUCT 7), cloneUCT (setPlayoutModule newUCT 7)]
    [cloneUCT (setPlayoutModule newUCT 7), cloneUCT (setPlayoutModule newUCT 7),
      cloneUCT (setPlayoutModule newUCT 7)]
    (by decide) (by decide)
  exact ⟨h.1, h.2.1⟩
